import Mathlib

/-!
Shallow embedding of the work-visibility-todos persistence layer (db.py).
Rows of the three SQL tables (tasks, task_items, task_logs) are records;
the database is lists of rows plus auto-increment counters.  The SQL
timestamp `_now()` is threaded as an explicit `now` string argument.
-/

namespace TodoDb

structure Task where
  id : Nat
  title : String
  description : String
  tags : String
  owner : String
  priority : String
  status : String
  due_date : Option String
  created_by : String
  created_at : String
  updated_by : String
  updated_at : String
deriving DecidableEq

structure Item where
  id : Nat
  task_id : Nat
  text : String
  is_done : Bool
  position : Int
  created_by : String
  created_at : String
  updated_by : String
  updated_at : String
deriving DecidableEq

structure LogEntry where
  id : Nat
  task_id : Nat
  actor : String
  message : String
  created_at : String
deriving DecidableEq

structure DB where
  tasks : List Task
  items : List Item
  logs : List LogEntry
  next_task_id : Nat
  next_item_id : Nat
  next_log_id : Nat
deriving DecidableEq

/-- Characters of a string folded to lower case (ASCII folding, exactly what
SQLite LIKE / Postgres ILIKE do for the ASCII range). -/
def lowerChars (s : String) : List Char := s.data.map Char.toLower

/-- Semantics of an SQL LIKE pattern over character lists: a percent sign
matches any (possibly empty) run of characters, an underscore matches exactly
one character, any other character matches itself. -/
def likeMatch : List Char → List Char → Bool
  | [], s => s.isEmpty
  | c :: p, s =>
    if c = '%' then s.tails.any (fun t => likeMatch p t)
    else if c = '_' then
      match s with
      | [] => false
      | _ :: t => likeMatch p t
    else
      match s with
      | [] => false
      | d :: t => c == d && likeMatch p t

/-- The LIKE pattern the code builds for a search string s, as characters:
`%` ++ s ++ `%`, lowered for case-insensitive matching. -/
def likePat (s : String) : List Char := '%' :: (lowerChars s ++ ['%'])

/-- One task row passes the search clause of list_tasks:
title LIKE pattern OR description LIKE pattern OR tags LIKE pattern. -/
def searchHit (s : String) (t : Task) : Bool :=
  likeMatch (likePat s) (lowerChars t.title)
  || likeMatch (likePat s) (lowerChars t.description)
  || likeMatch (likePat s) (lowerChars t.tags)

/-- The WHERE clause of list_tasks: each filter contributes a clause only when
present (empty owner or status list, and absent or empty search text, add no
clause at all, as in the Python code). -/
def rowMatches (owners statuses : List String) (search : Option String) (t : Task) : Bool :=
  (owners.isEmpty || owners.contains t.owner)
  && (statuses.isEmpty || statuses.contains t.status)
  && (match search with
      | none => true
      | some s => s == "" || searchHit s t)

/-- ORDER BY updated_at DESC. -/
def taskLe (a b : Task) : Prop := b.updated_at ≤ a.updated_at

instance : DecidableRel taskLe :=
  fun a b => inferInstanceAs (Decidable (b.updated_at ≤ a.updated_at))

instance : IsTotal Task taskLe := ⟨fun a b => le_total b.updated_at a.updated_at⟩

instance : IsTrans Task taskLe := ⟨fun _ _ _ hab hbc => le_trans hbc hab⟩

def list_tasks (db : DB) (owners statuses : List String) (search : Option String) : List Task :=
  List.insertionSort taskLe (db.tasks.filter (rowMatches owners statuses search))

def create_task (db : DB) (title description tags owner priority status : String)
    (due_date : Option String) (created_by now : String) : Nat × DB :=
  let tid := db.next_task_id
  (tid, { db with
            tasks := db.tasks ++ [⟨tid, title, description, tags, owner, priority, status,
                                   due_date, created_by, now, created_by, now⟩],
            next_task_id := tid + 1 })

def update_task_meta (db : DB) (task_id : Nat) (title description tags owner priority status : String)
    (due_date : Option String) (updated_by now : String) : DB :=
  { db with tasks := db.tasks.map (fun t =>
      if t.id == task_id then
        { t with title := title, description := description, tags := tags, owner := owner,
                 priority := priority, status := status, due_date := due_date,
                 updated_by := updated_by, updated_at := now }
      else t) }

def delete_task (db : DB) (task_id : Nat) : DB :=
  { db with
      items := db.items.filter (fun x => !(x.task_id == task_id)),
      logs := db.logs.filter (fun x => !(x.task_id == task_id)),
      tasks := db.tasks.filter (fun t => !(t.id == task_id)) }

/-- MAX(position) over a list of item rows, 0 for the empty list
(the COALESCE(MAX(position), 0) of _next_position). -/
def maxPosList : List Item → Int
  | [] => 0
  | x :: xs => xs.foldl (fun m y => max m y.position) x.position

/-- COALESCE(MAX(position), 0) over the items of one task. -/
def coalesceMaxPos (items : List Item) (task_id : Nat) : Int :=
  maxPosList (items.filter (fun x => x.task_id == task_id))

def add_item (db : DB) (task_id : Nat) (text created_by now : String) : Nat × DB :=
  let pos := coalesceMaxPos db.items task_id + 1
  let iid := db.next_item_id
  (iid, { db with
            items := db.items ++ [⟨iid, task_id, text, false, pos, created_by, now, created_by, now⟩],
            next_item_id := iid + 1 })

/-- ORDER BY position ASC, id ASC. -/
def itemLe (a b : Item) : Prop :=
  a.position < b.position ∨ (a.position = b.position ∧ a.id ≤ b.id)

instance : DecidableRel itemLe :=
  fun a b =>
    inferInstanceAs (Decidable (a.position < b.position ∨ (a.position = b.position ∧ a.id ≤ b.id)))

instance : IsTotal Item itemLe := ⟨fun a b => by unfold itemLe; omega⟩

instance : IsTrans Item itemLe := ⟨fun a b c hab hbc => by unfold itemLe at *; omega⟩

def list_items (db : DB) (task_id : Nat) : List Item :=
  List.insertionSort itemLe (db.items.filter (fun x => x.task_id == task_id))

def update_item (db : DB) (item_id : Nat) (text updated_by now : String) : DB :=
  { db with items := db.items.map (fun x =>
      if x.id == item_id then { x with text := text, updated_by := updated_by, updated_at := now }
      else x) }

def toggle_item_done (db : DB) (item_id : Nat) (is_done : Bool) (updated_by now : String) : DB :=
  { db with items := db.items.map (fun x =>
      if x.id == item_id then { x with is_done := is_done, updated_by := updated_by, updated_at := now }
      else x) }

def delete_item (db : DB) (item_id : Nat) : DB :=
  { db with items := db.items.filter (fun x => !(x.id == item_id)) }

/-- ORDER BY f DESC LIMIT 1 over a candidate list: the row with the largest
key f, none for the empty list (fetchone returning no row). -/
def pickTop (f : Item → Int) : List Item → Option Item
  | [] => none
  | x :: xs => some (xs.foldl (fun b y => if f b < f y then y else b) x)

/-- The neighbor query of move_item: for `up`, the row of the same task with
position strictly below, ordered by position DESC, LIMIT 1; for any other
direction string (the code only tests `== "up"`), the row with position
strictly above, ordered by position ASC, LIMIT 1. -/
def moveNeighbor (db : DB) (it : Item) (direction : String) : Option Item :=
  if direction == "up" then
    pickTop (fun x => x.position)
      (db.items.filter (fun x => x.task_id == it.task_id && decide (x.position < it.position)))
  else
    pickTop (fun x => -x.position)
      (db.items.filter (fun x => x.task_id == it.task_id && decide (it.position < x.position)))

def move_item (db : DB) (item_id : Nat) (direction : String) : DB :=
  match db.items.find? (fun x => x.id == item_id) with
  | none => db
  | some it =>
    match moveNeighbor db it direction with
    | none => db
    | some nb =>
      let items1 := db.items.map (fun x =>
        if x.id == item_id then { x with position := nb.position } else x)
      let items2 := items1.map (fun x =>
        if x.id == nb.id then { x with position := it.position } else x)
      { db with items := items2 }

def add_task_log (db : DB) (task_id : Nat) (actor message now : String) : DB :=
  { db with logs := db.logs ++ [⟨db.next_log_id, task_id, actor, message, now⟩],
            next_log_id := db.next_log_id + 1 }

/-- ORDER BY id DESC. -/
def logLe (a b : LogEntry) : Prop := b.id ≤ a.id

instance : DecidableRel logLe :=
  fun a b => inferInstanceAs (Decidable (b.id ≤ a.id))

instance : IsTotal LogEntry logLe := ⟨fun a b => le_total b.id a.id⟩

instance : IsTrans LogEntry logLe := ⟨fun _ _ _ hab hbc => le_trans hbc hab⟩

def get_task_logs (db : DB) (task_id : Nat) : List LogEntry :=
  List.insertionSort logLe (db.logs.filter (fun x => x.task_id == task_id))

/-! Spec-side predicates, following the wording of the specification, used to
compare against the code-derived definitions above. -/

/-- Spec wording: the search text occurs case-insensitively as a substring of
the given field. -/
def isSubCI (needle hay : String) : Bool :=
  (lowerChars hay).tails.any (fun t => (lowerChars needle).isPrefixOf t)

/-- Spec wording for the list_tasks filter: owner in the owner filter (empty
filter imposes no restriction), status likewise, and when search text is
provided it occurs case-insensitively as a substring of title, description or
tags. -/
def claimMatches (owners statuses : List String) (search : Option String) (t : Task) : Bool :=
  (owners.isEmpty || owners.contains t.owner)
  && (statuses.isEmpty || statuses.contains t.status)
  && (match search with
      | none => true
      | some s => isSubCI s t.title || isSubCI s t.description || isSubCI s t.tags)

/-- The search string contains no SQL LIKE wildcard characters. -/
def noWild (s : String) : Prop := ∀ c ∈ lowerChars s, c ≠ '%' ∧ c ≠ '_'

instance (s : String) : Decidable (noWild s) :=
  inferInstanceAs (Decidable (∀ c ∈ lowerChars s, c ≠ '%' ∧ c ≠ '_'))

/-- The checklist-item operations of the spec claim about position
distinctness. -/
inductive ItemOp where
  | add (task_id : Nat) (text created_by now : String)
  | move (item_id : Nat) (direction : String)
  | del (item_id : Nat)

def applyOp (db : DB) : ItemOp → DB
  | .add tid text cb now => (add_item db tid text cb now).2
  | .move iid dir => move_item db iid dir
  | .del iid => delete_item db iid

def applyOps (db : DB) (ops : List ItemOp) : DB := ops.foldl applyOp db

/-- No two items of the given task share a position value. -/
def PosDistinct (db : DB) (task_id : Nat) : Prop :=
  ((db.items.filter (fun x => x.task_id == task_id)).map (fun x => x.position)).Nodup

instance (db : DB) (task_id : Nat) : Decidable (PosDistinct db task_id) :=
  inferInstanceAs
    (Decidable
      (((db.items.filter (fun x : Item => x.task_id == task_id)).map
          (fun x : Item => x.position)).Nodup))

/-- Well-formedness granted by the schema: item ids are a primary key
(pairwise distinct) and the auto-increment counter is above every stored id. -/
def ItemIdsOk (db : DB) : Prop :=
  (db.items.map (fun x => x.id)).Nodup ∧ ∀ x ∈ db.items, x.id < db.next_item_id

instance (db : DB) : Decidable (ItemIdsOk db) :=
  inferInstanceAs
    (Decidable
      ((db.items.map (fun x : Item => x.id)).Nodup ∧ ∀ x ∈ db.items, x.id < db.next_item_id))

/-! Concrete database states used to instantiate the general theorems. -/

def tA : Task := ⟨1, "Deploy pipeline", "", "", "alice", "High", "Todo", none, "alice", "t1", "alice", "t1"⟩

def tB : Task := ⟨2, "abc", "", "", "bob", "Low", "Todo", none, "bob", "t1", "bob", "t2"⟩

def itA : Item := ⟨1, 1, "write spec", false, 1, "alice", "t1", "alice", "t1"⟩

def itB : Item := ⟨2, 1, "review", false, 2, "alice", "t1", "alice", "t1"⟩

def dbEmpty : DB := ⟨[], [], [], 1, 1, 1⟩

def dbAB : DB := ⟨[tA], [itA, itB], [], 2, 3, 1⟩

def dbOne : DB := ⟨[tA], [itA], [⟨1, 1, "alice", "created", "t1"⟩], 2, 2, 2⟩

def dbTwoTasks : DB := ⟨[tA, tB], [], [], 3, 1, 1⟩

/-! General list helpers. -/

theorem map_eq_self_of {α : Type} (l : List α) (f : α → α)
    (h : ∀ x ∈ l, f x = x) : l.map f = l := by
  induction l with
  | nil => rfl
  | cons a t ih =>
    rw [List.map_cons, h a (List.mem_cons_self a t),
      ih (fun x hx => h x (List.mem_cons_of_mem a hx))]

theorem filter_eq_self_of {α : Type} (l : List α) (p : α → Bool)
    (h : ∀ x ∈ l, p x = true) : l.filter p = l := by
  induction l with
  | nil => rfl
  | cons a t ih =>
    rw [List.filter_cons_of_pos (h a (List.mem_cons_self a t)),
      ih (fun x hx => h x (List.mem_cons_of_mem a hx))]

theorem filter_idem {α : Type} (l : List α) (p : α → Bool) :
    (l.filter p).filter p = l.filter p := by
  rw [List.filter_filter]
  exact List.filter_congr (fun a _ => Bool.and_self _)

/-! Claim theorems: error handling around missing validation (C5, C6, C7, C8). -/

/-- C5: deleteTask removes the task together with all of its checklist items
and log entries, so listItems and getLogs return empty afterwards; it is
idempotent, deleting an id nothing references is a no-op that raises no error
(the embedding is a total function), and deleteItem on an unknown item id is a
no-op as well. -/
theorem delete_task_cascades (db : DB) (tid : Nat) :
    list_items (delete_task db tid) tid = []
  ∧ get_task_logs (delete_task db tid) tid = []
  ∧ delete_task (delete_task db tid) tid = delete_task db tid
  ∧ ((∀ t ∈ db.tasks, t.id ≠ tid) → (∀ x ∈ db.items, x.task_id ≠ tid) →
      (∀ x ∈ db.logs, x.task_id ≠ tid) → delete_task db tid = db)
  ∧ (∀ iid, (∀ x ∈ db.items, x.id ≠ iid) → delete_item db iid = db) := by
  refine ⟨?_, ?_, ?_, ?_, ?_⟩
  · show List.insertionSort itemLe
      ((db.items.filter (fun x => !(x.task_id == tid))).filter (fun x => x.task_id == tid)) = []
    rw [List.filter_filter, List.filter_eq_nil_iff.mpr (fun a _ => by simp)]
    rfl
  · show List.insertionSort logLe
      ((db.logs.filter (fun x => !(x.task_id == tid))).filter (fun x => x.task_id == tid)) = []
    rw [List.filter_filter, List.filter_eq_nil_iff.mpr (fun a _ => by simp)]
    rfl
  · show ({ db with
        items := (db.items.filter (fun x => !(x.task_id == tid))).filter
          (fun x => !(x.task_id == tid)),
        logs := (db.logs.filter (fun x => !(x.task_id == tid))).filter
          (fun x => !(x.task_id == tid)),
        tasks := (db.tasks.filter (fun t => !(t.id == tid))).filter
          (fun t => !(t.id == tid)) } : DB) = delete_task db tid
    rw [filter_idem, filter_idem, filter_idem]
    rfl
  · intro h1 h2 h3
    show ({ db with
        items := db.items.filter (fun x => !(x.task_id == tid)),
        logs := db.logs.filter (fun x => !(x.task_id == tid)),
        tasks := db.tasks.filter (fun t => !(t.id == tid)) } : DB) = db
    rw [filter_eq_self_of _ _ (fun t ht => by simp [h1 t ht]),
      filter_eq_self_of _ _ (fun x hx => by simp [h2 x hx]),
      filter_eq_self_of _ _ (fun x hx => by simp [h3 x hx])]
  · intro iid h
    show ({ db with items := db.items.filter (fun x => !(x.id == iid)) } : DB) = db
    rw [filter_eq_self_of _ _ (fun x hx => by simp [h x hx])]

/-- Witness for C5 at a concrete state: deleting an id nothing references is a
no-op. -/
theorem delete_task_cascades_witness : delete_task dbOne 99 = dbOne :=
  (delete_task_cascades dbOne 99).2.2.2.1 (by decide) (by decide) (by decide)

/-- C6 (amended): updateTaskMeta on an unknown task id, and updateItem and
toggleItemDone on an unknown item id, silently succeed with no state change:
the UPDATE matches no row, and no NotFoundError exists anywhere in the code. -/
theorem update_unknown_id_silent_noop (db : DB) (tid iid : Nat)
    (title description tags owner priority status : String) (due : Option String)
    (ub now text : String) (d : Bool)
    (h1 : ∀ t ∈ db.tasks, t.id ≠ tid) (h2 : ∀ x ∈ db.items, x.id ≠ iid) :
    update_task_meta db tid title description tags owner priority status due ub now = db
  ∧ update_item db iid text ub now = db
  ∧ toggle_item_done db iid d ub now = db := by
  refine ⟨?_, ?_, ?_⟩
  · show ({ db with tasks := db.tasks.map _ } : DB) = db
    rw [map_eq_self_of _ _ (fun t ht => by simp [h1 t ht])]
  · show ({ db with items := db.items.map _ } : DB) = db
    rw [map_eq_self_of _ _ (fun x hx => by simp [h2 x hx])]
  · show ({ db with items := db.items.map _ } : DB) = db
    rw [map_eq_self_of _ _ (fun x hx => by simp [h2 x hx])]

/-- Witness for C6 (amended) at a concrete state. -/
theorem update_unknown_id_silent_noop_witness :
    update_task_meta dbOne 2 "a" "b" "c" "d" "e" "f" none "g" "h" = dbOne
  ∧ update_item dbOne 7 "a" "g" "h" = dbOne
  ∧ toggle_item_done dbOne 7 true "g" "h" = dbOne :=
  update_unknown_id_silent_noop dbOne 2 7 "a" "b" "c" "d" "e" "f" none "g" "h" "a" true
    (by decide) (by decide)

/-- Counterexample to C6 as stated: on a state whose only task has id 1 and
whose only item has id 1, updating task id 2 or item id 7 does not fail with
NotFoundError; it silently succeeds and leaves the store unchanged. -/
theorem update_unknown_id_counterexample :
    update_task_meta dbOne 2 "t" "d" "g" "o" "p" "s" none "u" "n" = dbOne
  ∧ update_item dbOne 7 "t" "u" "n" = dbOne
  ∧ toggle_item_done dbOne 7 true "u" "n" = dbOne := by decide

/-- C7 (amended): createTask with an empty title does not fail: it inserts a
task row whose title is the empty string, and addItem with empty text inserts
an item row whose text is empty (no ValidationError exists in the persistence
code; the UI refuses to submit blank input before these functions are called). -/
theorem create_task_add_item_no_validation (db : DB)
    (description tags owner priority status : String) (due : Option String)
    (cb now : String) (tid : Nat) :
    (create_task db "" description tags owner priority status due cb now).2.tasks
      = db.tasks ++ [⟨db.next_task_id, "", description, tags, owner, priority, status,
                      due, cb, now, cb, now⟩]
  ∧ (∃ p : Int,
      (add_item db tid "" cb now).2.items
        = db.items ++ [⟨db.next_item_id, tid, "", false, p, cb, now, cb, now⟩]) :=
  ⟨rfl, ⟨coalesceMaxPos db.items tid + 1, rfl⟩⟩

/-- Counterexample to C7 as stated: from the empty store, createTask with empty
title succeeds and changes the store (one task with empty title), and addItem
with empty text succeeds and changes the store. -/
theorem create_task_empty_title_counterexample :
    (create_task dbEmpty "" "" "" "alice" "Low" "Todo" none "alice" "t1").2.tasks
      = [⟨1, "", "", "", "alice", "Low", "Todo", none, "alice", "t1", "alice", "t1"⟩]
  ∧ (add_item dbEmpty 1 "" "alice" "t1").2.items
      = [⟨1, 1, "", false, 1, "alice", "t1", "alice", "t1"⟩] := by decide

/-- C8 (amended): addItem performs no existence check on taskId: even when no
task with that id exists, it inserts an item carrying that task_id (the schema
in init_db declares task_id NOT NULL but no FOREIGN KEY constraint, and
add_item never consults the tasks table). -/
theorem add_item_ignores_task_existence (db : DB) (tid : Nat) (text cb now : String)
    (_hno : ∀ t ∈ db.tasks, t.id ≠ tid) :
    ∃ x, (add_item db tid text cb now).2.items = db.items ++ [x]
      ∧ x.task_id = tid ∧ x.text = text :=
  ⟨⟨db.next_item_id, tid, text, false, coalesceMaxPos db.items tid + 1, cb, now, cb, now⟩,
    rfl, rfl, rfl⟩

/-- Witness for C8 (amended) at a concrete state. -/
theorem add_item_ignores_task_existence_witness :
    ∃ x, (add_item dbEmpty 999 "x" "alice" "t1").2.items = dbEmpty.items ++ [x]
      ∧ x.task_id = 999 ∧ x.text = "x" :=
  add_item_ignores_task_existence dbEmpty 999 "x" "alice" "t1" (by decide)

/-- Counterexample to C8 as stated: from the empty store (no tasks at all),
addItem for task id 999 creates an item attached to task id 999. -/
theorem add_item_orphan_counterexample :
    dbEmpty.tasks = []
  ∧ ((add_item dbEmpty 999 "x" "alice" "t1").2.items).map (fun x : Item => x.task_id)
      = [999] := by decide

/-! Facts about the MAX(position) aggregate. -/

theorem foldl_max_ge (t : List Item) (a : Int) :
    a ≤ t.foldl (fun m y => max m y.position) a
  ∧ ∀ y ∈ t, y.position ≤ t.foldl (fun m y => max m y.position) a := by
  induction t generalizing a with
  | nil => exact ⟨le_refl a, by simp⟩
  | cons b u ih =>
    refine ⟨le_trans (le_max_left a b.position) (ih (max a b.position)).1, ?_⟩
    intro y hy
    rcases List.mem_cons.mp hy with rfl | hy
    · exact le_trans (le_max_right a y.position) (ih (max a y.position)).1
    · exact (ih (max a b.position)).2 y hy

theorem foldl_max_attained (t : List Item) (a : Int) :
    t.foldl (fun m y => max m y.position) a = a
  ∨ ∃ y ∈ t, t.foldl (fun m y => max m y.position) a = y.position := by
  induction t generalizing a with
  | nil => exact Or.inl rfl
  | cons b u ih =>
    rcases ih (max a b.position) with h | ⟨y, hy, h⟩
    · rcases max_choice a b.position with hm | hm
      · left
        rw [List.foldl_cons, h, hm]
      · right
        exact ⟨b, List.mem_cons_self b u, by rw [List.foldl_cons, h, hm]⟩
    · right
      exact ⟨y, List.mem_cons_of_mem b hy, by rw [List.foldl_cons, h]⟩

theorem maxPosList_ge (m : List Item) (x : Item) (hx : x ∈ m) : x.position ≤ maxPosList m := by
  cases m with
  | nil => cases hx
  | cons a t =>
    rcases List.mem_cons.mp hx with rfl | hx
    · exact (foldl_max_ge t x.position).1
    · exact (foldl_max_ge t a.position).2 x hx

theorem maxPosList_attained (m : List Item) (hm : m ≠ []) :
    ∃ x ∈ m, maxPosList m = x.position := by
  cases m with
  | nil => exact absurd rfl hm
  | cons a t =>
    rcases foldl_max_attained t a.position with h | ⟨y, hy, h⟩
    · exact ⟨a, List.mem_cons_self a t, h⟩
    · exact ⟨y, List.mem_cons_of_mem a hy, h⟩

/-- C4: addItem appends a new item whose position is max(existing positions of
the task) + 1 (so strictly above every existing position of the task), and 1
when the task has no items, with is_done false and the given text; on a task
with no items the subsequent listItems returns exactly that one item at
position 1. -/
theorem add_item_position_spec (db : DB) (tid : Nat) (text cb now : String) :
    ∃ p : Int,
      (add_item db tid text cb now).2.items
          = db.items ++ [⟨db.next_item_id, tid, text, false, p, cb, now, cb, now⟩]
    ∧ (add_item db tid text cb now).1 = db.next_item_id
    ∧ (db.items.filter (fun x => x.task_id == tid) = [] → p = 1)
    ∧ (∀ x ∈ db.items.filter (fun x => x.task_id == tid), x.position < p)
    ∧ (db.items.filter (fun x => x.task_id == tid) ≠ [] →
        ∃ x ∈ db.items.filter (fun x => x.task_id == tid), p = x.position + 1)
    ∧ (db.items.filter (fun x => x.task_id == tid) = [] →
        list_items (add_item db tid text cb now).2 tid
          = [⟨db.next_item_id, tid, text, false, p, cb, now, cb, now⟩]) := by
  refine ⟨coalesceMaxPos db.items tid + 1, rfl, rfl, ?_, ?_, ?_, ?_⟩
  · intro h
    show maxPosList (db.items.filter (fun x => x.task_id == tid)) + 1 = 1
    rw [h]
    rfl
  · intro x hx
    have := maxPosList_ge (db.items.filter (fun x => x.task_id == tid)) x hx
    show x.position < maxPosList (db.items.filter (fun x => x.task_id == tid)) + 1
    omega
  · intro h
    obtain ⟨x, hx, he⟩ := maxPosList_attained (db.items.filter (fun x => x.task_id == tid)) h
    exact ⟨x, hx, by rw [coalesceMaxPos, he]⟩
  · intro h
    show List.insertionSort itemLe
      ((db.items ++ [(⟨db.next_item_id, tid, text, false, coalesceMaxPos db.items tid + 1,
          cb, now, cb, now⟩ : Item)]).filter (fun x => x.task_id == tid))
      = [⟨db.next_item_id, tid, text, false, coalesceMaxPos db.items tid + 1, cb, now, cb, now⟩]
    rw [List.filter_append, h]
    simp

/-- Witness for C4 on the concrete empty store: add one item, list it back. -/
theorem add_item_position_spec_witness :
    ∃ p : Int,
      (add_item dbEmpty 1 "buy milk" "alice" "t1").2.items
          = dbEmpty.items ++ [⟨dbEmpty.next_item_id, 1, "buy milk", false, p, "alice", "t1",
              "alice", "t1"⟩]
    ∧ (add_item dbEmpty 1 "buy milk" "alice" "t1").1 = dbEmpty.next_item_id
    ∧ (dbEmpty.items.filter (fun x => x.task_id == 1) = [] → p = 1)
    ∧ (∀ x ∈ dbEmpty.items.filter (fun x => x.task_id == 1), x.position < p)
    ∧ (dbEmpty.items.filter (fun x => x.task_id == 1) ≠ [] →
        ∃ x ∈ dbEmpty.items.filter (fun x => x.task_id == 1), p = x.position + 1)
    ∧ (dbEmpty.items.filter (fun x => x.task_id == 1) = [] →
        list_items (add_item dbEmpty 1 "buy milk" "alice" "t1").2 1
          = [⟨dbEmpty.next_item_id, 1, "buy milk", false, p, "alice", "t1", "alice", "t1"⟩]) :=
  add_item_position_spec dbEmpty 1 "buy milk" "alice" "t1"

/-! LIKE pattern matching versus plain substring search (C3). -/

theorem tails_any_isEmpty (t : List Char) : t.tails.any (fun u => u.isEmpty) = true := by
  induction t with
  | nil => rfl
  | cons a t ih => simp [List.tails_cons, ih]

theorem likeMatch_lit_percent (w : List Char) (hw : ∀ c ∈ w, c ≠ '%' ∧ c ≠ '_')
    (t : List Char) : likeMatch (w ++ ['%']) t = w.isPrefixOf t := by
  induction w generalizing t with
  | nil =>
    show likeMatch ('%' :: []) t = List.isPrefixOf [] t
    simp [likeMatch, tails_any_isEmpty t, List.isPrefixOf]
  | cons c w ih =>
    have hc := hw c (List.mem_cons_self c w)
    cases t with
    | nil => simp [likeMatch, hc.1, hc.2, List.isPrefixOf]
    | cons d t' =>
      simp [likeMatch, hc.1, hc.2, List.isPrefixOf,
        ih (fun x hx => hw x (List.mem_cons_of_mem c hx)) t']

theorem likeMatch_pat_eq_isSubCI (s hay : String) (hs : noWild s) :
    likeMatch (likePat s) (lowerChars hay) = isSubCI s hay := by
  have hfun : ∀ t, likeMatch (lowerChars s ++ ['%']) t = (lowerChars s).isPrefixOf t :=
    likeMatch_lit_percent (lowerChars s) hs
  show (lowerChars hay).tails.any (fun t => likeMatch (lowerChars s ++ ['%']) t) = isSubCI s hay
  simp only [hfun]
  rfl

theorem tails_any_true (l : List Char) : l.tails.any (fun _ => true) = true := by
  cases l with
  | nil => rfl
  | cons a t => simp [List.tails_cons]

theorem isSubCI_empty_left (hay : String) : isSubCI "" hay = true := by
  show (lowerChars hay).tails.any (fun t => (lowerChars "").isPrefixOf t) = true
  have h0 : lowerChars "" = ([] : List Char) := rfl
  rw [h0]
  have hp : ∀ t : List Char, List.isPrefixOf [] t = true := fun t => by cases t <;> rfl
  simp only [hp]
  exact tails_any_true (lowerChars hay)

theorem rowMatches_eq_claimMatches (owners statuses : List String) (search : Option String)
    (hs : ∀ s, search = some s → noWild s) (t : Task) :
    rowMatches owners statuses search t = claimMatches owners statuses search t := by
  cases search with
  | none => rfl
  | some s =>
    have hw := hs s rfl
    have h3 : (s == "" || searchHit s t)
        = (isSubCI s t.title || isSubCI s t.description || isSubCI s t.tags) := by
      by_cases he : s = ""
      · subst he
        rw [isSubCI_empty_left]
        simp
      · have hbe : (s == "") = false := by simp [he]
        rw [hbe, searchHit, likeMatch_pat_eq_isSubCI s t.title hw,
          likeMatch_pat_eq_isSubCI s t.description hw, likeMatch_pat_eq_isSubCI s t.tags hw]
        simp
    exact congrArg
      (fun z => ((owners.isEmpty || owners.contains t.owner)
        && (statuses.isEmpty || statuses.contains t.status)) && z) h3

/-- C3 (amended): when the search text contains no SQL LIKE wildcard
characters (percent, underscore), listTasks returns exactly the tasks whose
owner passes the owner filter (empty filter imposes no restriction), whose
status passes the status filter, and, when search text is provided, which
contain it case-insensitively as a substring of title, description or tags;
the result is sorted by updated_at descending, and when nothing matches the
result is the empty list (a total function, never an error).  A search text
containing a wildcard is instead interpreted as a LIKE pattern. -/
theorem list_tasks_filter_sorted (db : DB) (owners statuses : List String)
    (search : Option String) (hs : ∀ s, search = some s → noWild s) :
    (list_tasks db owners statuses search).Perm
        (db.tasks.filter (claimMatches owners statuses search))
  ∧ List.Pairwise taskLe (list_tasks db owners statuses search)
  ∧ ((∀ t ∈ db.tasks, claimMatches owners statuses search t = false) →
      list_tasks db owners statuses search = []) := by
  have hfil : db.tasks.filter (rowMatches owners statuses search)
      = db.tasks.filter (claimMatches owners statuses search) :=
    List.filter_congr (fun t _ => rowMatches_eq_claimMatches owners statuses search hs t)
  refine ⟨?_, List.sorted_insertionSort taskLe _, ?_⟩
  · show (List.insertionSort taskLe (db.tasks.filter (rowMatches owners statuses search))).Perm _
    rw [hfil]
    exact List.perm_insertionSort taskLe _
  · intro h
    show List.insertionSort taskLe (db.tasks.filter (rowMatches owners statuses search)) = []
    rw [hfil, List.filter_eq_nil_iff.mpr (fun t ht => by simp [h t ht])]
    rfl

/-- Witness for C3 (amended): the spec's own example, search "pipeline"
against the task titled "Deploy pipeline". -/
theorem list_tasks_filter_sorted_witness :
    (list_tasks dbTwoTasks [] [] (some "pipeline")).Perm
      (dbTwoTasks.tasks.filter (claimMatches [] [] (some "pipeline"))) :=
  (list_tasks_filter_sorted dbTwoTasks [] [] (some "pipeline")
    (fun s hs => by
      obtain rfl : "pipeline" = s := Option.some.inj hs
      decide)).1

/-- Counterexample to C3 as stated: searching for "a_c" returns the task
titled "abc" although "a_c" does not occur as a substring of its title,
description or tags — the underscore is an SQL LIKE wildcard. -/
theorem list_tasks_like_wildcard_counterexample :
    list_tasks dbTwoTasks [] [] (some "a_c") = [tB]
  ∧ claimMatches [] [] (some "a_c") tB = false := by decide

/-- C9: listItems returns exactly the items of the given task (a permutation
of the filter, with membership characterized), ordered by position ascending
with id ascending as tie-break, even when positions collide; it is a total
function, so it never fails. -/
theorem list_items_ordered_exact (db : DB) (tid : Nat) :
    (list_items db tid).Perm (db.items.filter (fun x => x.task_id == tid))
  ∧ List.Pairwise itemLe (list_items db tid)
  ∧ ∀ x, x ∈ list_items db tid ↔ x ∈ db.items ∧ x.task_id = tid := by
  refine ⟨List.perm_insertionSort itemLe _, List.sorted_insertionSort itemLe _, ?_⟩
  intro x
  show x ∈ List.insertionSort itemLe (db.items.filter (fun x => x.task_id == tid)) ↔ _
  rw [(List.perm_insertionSort itemLe (db.items.filter (fun x => x.task_id == tid))).mem_iff,
    List.mem_filter]
  simp

/-! Facts about the move_item neighbor query (C1, C2, C10). -/

theorem foldl_pick_mem (f : Item → Int) (xs : List Item) (a : Item) :
    xs.foldl (fun b y => if f b < f y then y else b) a = a
  ∨ xs.foldl (fun b y => if f b < f y then y else b) a ∈ xs := by
  induction xs generalizing a with
  | nil => exact Or.inl rfl
  | cons x t ih =>
    rw [List.foldl_cons]
    rcases ih (if f a < f x then x else a) with h | h
    · rw [h]
      by_cases hc : f a < f x
      · right
        rw [if_pos hc]
        exact List.mem_cons_self x t
      · left
        rw [if_neg hc]
    · right
      exact List.mem_cons_of_mem x h

theorem foldl_pick_le (f : Item → Int) (xs : List Item) (a : Item) :
    f a ≤ f (xs.foldl (fun b y => if f b < f y then y else b) a)
  ∧ ∀ y ∈ xs, f y ≤ f (xs.foldl (fun b y => if f b < f y then y else b) a) := by
  induction xs generalizing a with
  | nil => exact ⟨le_refl _, by simp⟩
  | cons x t ih =>
    rw [List.foldl_cons]
    have hstep : f a ≤ f (if f a < f x then x else a) ∧ f x ≤ f (if f a < f x then x else a) := by
      by_cases hc : f a < f x
      · rw [if_pos hc]
        exact ⟨le_of_lt hc, le_refl _⟩
      · rw [if_neg hc]
        exact ⟨le_refl _, le_of_not_lt hc⟩
    refine ⟨le_trans hstep.1 (ih (if f a < f x then x else a)).1, ?_⟩
    intro y hy
    rcases List.mem_cons.mp hy with rfl | hy
    · exact le_trans hstep.2 (ih (if f a < f y then y else a)).1
    · exact (ih (if f a < f x then x else a)).2 y hy

theorem pickTop_mem (f : Item → Int) (l : List Item) (nb : Item)
    (h : pickTop f l = some nb) : nb ∈ l := by
  cases l with
  | nil => cases h
  | cons x xs =>
    have he : xs.foldl (fun b y => if f b < f y then y else b) x = nb := by
      injection h
    rcases foldl_pick_mem f xs x with h2 | h2
    · rw [he] at h2
      rw [h2]
      exact List.mem_cons_self x xs
    · rw [he] at h2
      exact List.mem_cons_of_mem x h2

theorem pickTop_le (f : Item → Int) (l : List Item) (nb : Item)
    (h : pickTop f l = some nb) : ∀ y ∈ l, f y ≤ f nb := by
  cases l with
  | nil => cases h
  | cons x xs =>
    have he : xs.foldl (fun b y => if f b < f y then y else b) x = nb := by
      injection h
    intro y hy
    rcases List.mem_cons.mp hy with rfl | hy
    · rw [← he]
      exact (foldl_pick_le f xs y).1
    · rw [← he]
      exact (foldl_pick_le f xs x).2 y hy

theorem pickTop_ne_none (f : Item → Int) (l : List Item) (x : Item) (hx : x ∈ l) :
    pickTop f l ≠ none := by
  cases l with
  | nil => cases hx
  | cons a t => simp [pickTop]

theorem moveNeighbor_up_eq (db : DB) (it : Item) :
    moveNeighbor db it "up" = pickTop (fun x => x.position)
      (db.items.filter
        (fun x => x.task_id == it.task_id && decide (x.position < it.position))) := by
  unfold moveNeighbor
  rw [if_pos (by decide)]

theorem moveNeighbor_down_eq (db : DB) (it : Item) :
    moveNeighbor db it "down" = pickTop (fun x => -x.position)
      (db.items.filter
        (fun x => x.task_id == it.task_id && decide (it.position < x.position))) := by
  unfold moveNeighbor
  rw [if_neg (by decide)]

theorem moveNeighbor_mem (db : DB) (it nb : Item) (dir : String)
    (h : moveNeighbor db it dir = some nb) :
    nb ∈ db.items ∧ nb.task_id = it.task_id ∧ nb.position ≠ it.position := by
  unfold moveNeighbor at h
  by_cases hd : (dir == "up") = true
  · rw [if_pos hd] at h
    have hm := pickTop_mem _ _ _ h
    rw [List.mem_filter, Bool.and_eq_true] at hm
    refine ⟨hm.1, by simpa using hm.2.1, ?_⟩
    have := of_decide_eq_true hm.2.2
    omega
  · rw [if_neg hd] at h
    have hm := pickTop_mem _ _ _ h
    rw [List.mem_filter, Bool.and_eq_true] at hm
    refine ⟨hm.1, by simpa using hm.2.1, ?_⟩
    have := of_decide_eq_true hm.2.2
    omega

theorem moveNeighbor_up_spec (db : DB) (it nb : Item)
    (h : moveNeighbor db it "up" = some nb) :
    nb ∈ db.items ∧ nb.task_id = it.task_id ∧ nb.position < it.position
  ∧ ∀ y ∈ db.items, y.task_id = it.task_id → y.position < it.position →
      y.position ≤ nb.position := by
  rw [moveNeighbor_up_eq] at h
  have hm := pickTop_mem _ _ _ h
  have hle := pickTop_le _ _ _ h
  rw [List.mem_filter, Bool.and_eq_true] at hm
  refine ⟨hm.1, by simpa using hm.2.1, of_decide_eq_true hm.2.2, ?_⟩
  intro y hy h1 h2
  exact hle y (List.mem_filter.mpr ⟨hy, by simp [h1, h2]⟩)

theorem moveNeighbor_down_spec (db : DB) (it nb : Item)
    (h : moveNeighbor db it "down" = some nb) :
    nb ∈ db.items ∧ nb.task_id = it.task_id ∧ it.position < nb.position
  ∧ ∀ y ∈ db.items, y.task_id = it.task_id → it.position < y.position →
      nb.position ≤ y.position := by
  rw [moveNeighbor_down_eq] at h
  have hm := pickTop_mem _ _ _ h
  have hle := pickTop_le _ _ _ h
  rw [List.mem_filter, Bool.and_eq_true] at hm
  refine ⟨hm.1, by simpa using hm.2.1, of_decide_eq_true hm.2.2, ?_⟩
  intro y hy h1 h2
  have := hle y (List.mem_filter.mpr ⟨hy, by simp [h1, h2]⟩)
  omega

theorem moveNeighbor_up_none (db : DB) (it : Item)
    (h : ∀ y ∈ db.items, y.task_id = it.task_id → ¬ y.position < it.position) :
    moveNeighbor db it "up" = none := by
  rw [moveNeighbor_up_eq]
  have hfil : db.items.filter
      (fun x => x.task_id == it.task_id && decide (x.position < it.position)) = [] := by
    rw [List.filter_eq_nil_iff]
    intro a ha hcon
    rw [Bool.and_eq_true] at hcon
    exact h a ha (by simpa using hcon.1) (of_decide_eq_true hcon.2)
  rw [hfil]
  rfl

theorem moveNeighbor_down_none (db : DB) (it : Item)
    (h : ∀ y ∈ db.items, y.task_id = it.task_id → ¬ it.position < y.position) :
    moveNeighbor db it "down" = none := by
  rw [moveNeighbor_down_eq]
  have hfil : db.items.filter
      (fun x => x.task_id == it.task_id && decide (it.position < x.position)) = [] := by
    rw [List.filter_eq_nil_iff]
    intro a ha hcon
    rw [Bool.and_eq_true] at hcon
    exact h a ha (by simpa using hcon.1) (of_decide_eq_true hcon.2)
  rw [hfil]
  rfl

theorem find?_id_spec (db : DB) (iid : Nat) (it : Item)
    (h : db.items.find? (fun x => x.id == iid) = some it) :
    it ∈ db.items ∧ it.id = iid :=
  ⟨List.mem_of_find?_eq_some h, by simpa using List.find?_some h⟩

theorem move_item_of_find_none (db : DB) (iid : Nat) (dir : String)
    (h : db.items.find? (fun x => x.id == iid) = none) : move_item db iid dir = db := by
  simp only [move_item, h]

theorem move_item_of_nb_none (db : DB) (iid : Nat) (dir : String) (it : Item)
    (hf : db.items.find? (fun x => x.id == iid) = some it)
    (h : moveNeighbor db it dir = none) : move_item db iid dir = db := by
  simp only [move_item, hf, h]

theorem moveNeighbor_ne_id (db : DB) (iid : Nat) (dir : String) (it nb : Item)
    (hids : (db.items.map (fun x : Item => x.id)).Nodup)
    (hf : db.items.find? (fun x => x.id == iid) = some it)
    (hnb : moveNeighbor db it dir = some nb) : iid ≠ nb.id := by
  obtain ⟨hitm, hitid⟩ := find?_id_spec db iid it hf
  obtain ⟨hnbm, hnbt, hnbp⟩ := moveNeighbor_mem db it nb dir hnb
  intro he
  have hin : it = nb := List.inj_on_of_nodup_map hids hitm hnbm (by rw [hitid, he])
  exact hnbp (by rw [← hin])

theorem move_item_swap_items (db : DB) (iid : Nat) (dir : String) (it nb : Item)
    (hf : db.items.find? (fun x => x.id == iid) = some it)
    (hnb : moveNeighbor db it dir = some nb)
    (hne : iid ≠ nb.id) :
    (move_item db iid dir).items = db.items.map (fun x =>
      if x.id = iid then { x with position := nb.position }
      else if x.id = nb.id then { x with position := it.position } else x)
  ∧ (move_item db iid dir).tasks = db.tasks
  ∧ (move_item db iid dir).logs = db.logs
  ∧ (move_item db iid dir).next_task_id = db.next_task_id
  ∧ (move_item db iid dir).next_item_id = db.next_item_id
  ∧ (move_item db iid dir).next_log_id = db.next_log_id := by
  have he : move_item db iid dir = { db with items := (db.items.map (fun x =>
      if x.id == iid then { x with position := nb.position } else x)).map (fun x =>
      if x.id == nb.id then { x with position := it.position } else x) } := by
    simp only [move_item, hf, hnb]
  rw [he]
  refine ⟨?_, rfl, rfl, rfl, rfl, rfl⟩
  rw [List.map_map]
  apply List.map_congr_left
  intro x _
  by_cases h1 : x.id = iid
  · simp [Function.comp, h1, hne]
  · by_cases h2 : x.id = nb.id
    · simp [Function.comp, h1, h2, Ne.symm hne]
    · simp [Function.comp, h1, h2]

theorem filter_task_map_update (items : List Item) (g : Item → Item)
    (hg : ∀ x, (g x).task_id = x.task_id) (tid : Nat) :
    (items.map g).filter (fun x => x.task_id == tid)
      = (items.filter (fun x => x.task_id == tid)).map g := by
  rw [List.filter_map]
  congr 1
  apply List.filter_congr
  intro x _
  simp [Function.comp, hg x]

theorem swap_preserves_nodup_positions (l : List Item) (it nb : Item) (g : Item → Item)
    (hpos : (l.map (fun x : Item => x.position)).Nodup)
    (hit : it ∈ l) (hnb : nb ∈ l) (hne : nb.position ≠ it.position)
    (hg : ∀ x ∈ l, (x = it ∧ (g x).position = nb.position)
        ∨ (x = nb ∧ (g x).position = it.position)
        ∨ (x ≠ it ∧ x ≠ nb ∧ (g x).position = x.position)) :
    ((l.map g).map (fun x : Item => x.position)).Nodup := by
  have posInj := List.inj_on_of_nodup_map hpos
  rw [List.map_map]
  have hpos' : List.Pairwise Ne (l.map (fun x : Item => x.position)) := hpos
  rw [List.pairwise_map] at hpos'
  show List.Pairwise Ne (l.map ((fun x : Item => x.position) ∘ g))
  rw [List.pairwise_map]
  refine hpos'.imp_of_mem ?_
  intro a b ha hb hab
  show (g a).position ≠ (g b).position
  rcases hg a ha with ⟨ha1, hga⟩ | ⟨ha1, hga⟩ | ⟨hna1, hna2, hga⟩ <;>
    rcases hg b hb with ⟨hb1, hgb⟩ | ⟨hb1, hgb⟩ | ⟨hnb1, hnb2, hgb⟩ <;>
    rw [hga, hgb]
  · rw [ha1, hb1] at hab
    exact absurd rfl hab
  · exact hne
  · intro h
    exact hnb2 (posInj hb hnb h.symm)
  · exact Ne.symm hne
  · rw [ha1, hb1] at hab
    exact absurd rfl hab
  · intro h
    exact hnb1 (posInj hb hit h.symm)
  · intro h
    exact hna2 (posInj ha hnb h)
  · intro h
    exact hna1 (posInj ha hit h)
  · exact hab

/-- C1: for a located item (schema: item ids are a primary key, hence the
Nodup hypothesis; the located row is the one find? returns), moveItem with
`up` is a no-op when no item of the same task has a strictly smaller
position, symmetrically for `down`; otherwise it picks the neighbor with the
largest position strictly below (respectively smallest strictly above) and
exchanges the two position values, leaving every other field alone. -/
theorem move_item_neighbor_swap (db : DB) (iid : Nat) (it : Item)
    (hids : (db.items.map (fun x : Item => x.id)).Nodup)
    (hf : db.items.find? (fun x => x.id == iid) = some it) :
    ((∀ y ∈ db.items, y.task_id = it.task_id → ¬ y.position < it.position) →
        move_item db iid "up" = db)
  ∧ ((∀ y ∈ db.items, y.task_id = it.task_id → ¬ it.position < y.position) →
        move_item db iid "down" = db)
  ∧ (∀ c ∈ db.items, c.task_id = it.task_id → c.position < it.position →
      ∃ nb, nb ∈ db.items ∧ nb.task_id = it.task_id ∧ nb.position < it.position ∧
        (∀ y ∈ db.items, y.task_id = it.task_id → y.position < it.position →
            y.position ≤ nb.position) ∧
        (move_item db iid "up").items = db.items.map (fun x =>
          if x.id = iid then { x with position := nb.position }
          else if x.id = nb.id then { x with position := it.position } else x))
  ∧ (∀ c ∈ db.items, c.task_id = it.task_id → it.position < c.position →
      ∃ nb, nb ∈ db.items ∧ nb.task_id = it.task_id ∧ it.position < nb.position ∧
        (∀ y ∈ db.items, y.task_id = it.task_id → it.position < y.position →
            nb.position ≤ y.position) ∧
        (move_item db iid "down").items = db.items.map (fun x =>
          if x.id = iid then { x with position := nb.position }
          else if x.id = nb.id then { x with position := it.position } else x)) := by
  refine ⟨?_, ?_, ?_, ?_⟩
  · intro h
    exact move_item_of_nb_none db iid "up" it hf (moveNeighbor_up_none db it h)
  · intro h
    exact move_item_of_nb_none db iid "down" it hf (moveNeighbor_down_none db it h)
  · intro c hc h1 h2
    rcases hnb : moveNeighbor db it "up" with _ | nb
    · have hcm : c ∈ db.items.filter
          (fun x => x.task_id == it.task_id && decide (x.position < it.position)) :=
        List.mem_filter.mpr ⟨hc, by simp [h1, h2]⟩
      rw [moveNeighbor_up_eq] at hnb
      exact absurd hnb (pickTop_ne_none _ _ c hcm)
    · obtain ⟨hm, ht, hp, hopt⟩ := moveNeighbor_up_spec db it nb hnb
      have hneid := moveNeighbor_ne_id db iid "up" it nb hids hf hnb
      exact ⟨nb, hm, ht, hp, hopt, (move_item_swap_items db iid "up" it nb hf hnb hneid).1⟩
  · intro c hc h1 h2
    rcases hnb : moveNeighbor db it "down" with _ | nb
    · have hcm : c ∈ db.items.filter
          (fun x => x.task_id == it.task_id && decide (it.position < x.position)) :=
        List.mem_filter.mpr ⟨hc, by simp [h1, h2]⟩
      rw [moveNeighbor_down_eq] at hnb
      exact absurd hnb (pickTop_ne_none _ _ c hcm)
    · obtain ⟨hm, ht, hp, hopt⟩ := moveNeighbor_down_spec db it nb hnb
      have hneid := moveNeighbor_ne_id db iid "down" it nb hids hf hnb
      exact ⟨nb, hm, ht, hp, hopt, (move_item_swap_items db iid "down" it nb hf hnb hneid).1⟩

/-- Witness for C1: moving the item with the smallest position of its task up
is a no-op on a concrete two-item state. -/
theorem move_item_neighbor_swap_witness : move_item dbAB 1 "up" = dbAB :=
  (move_item_neighbor_swap dbAB 1 itA (by decide) rfl).1 (by decide)

/-- C10: moveItem modifies at most the position fields of the moved item and
of its swapped neighbor: every item keeps its id, task_id, text, is_done and
audit fields, any item that is neither the moved one nor the neighbor is
completely unchanged, the tasks and logs tables and the counters are
untouched, and an unknown item id makes the whole call a silent no-op. -/
theorem move_item_frame (db : DB) (iid : Nat) (dir : String) :
    (move_item db iid dir).tasks = db.tasks
  ∧ (move_item db iid dir).logs = db.logs
  ∧ (∃ nbid : Nat, List.Forall₂ (fun old new : Item =>
        new.id = old.id ∧ new.task_id = old.task_id ∧ new.text = old.text ∧
        new.is_done = old.is_done ∧ new.created_by = old.created_by ∧
        new.created_at = old.created_at ∧ new.updated_by = old.updated_by ∧
        new.updated_at = old.updated_at ∧ (old.id ≠ iid → old.id ≠ nbid → new = old))
      db.items (move_item db iid dir).items)
  ∧ ((∀ x ∈ db.items, x.id ≠ iid) → move_item db iid dir = db) := by
  rcases hfc : db.items.find? (fun x => x.id == iid) with _ | it
  · have he := move_item_of_find_none db iid dir hfc
    rw [he]
    exact ⟨rfl, rfl,
      ⟨0, List.forall₂_same.mpr (fun x _ => ⟨rfl, rfl, rfl, rfl, rfl, rfl, rfl, rfl,
        fun _ _ => rfl⟩)⟩,
      fun _ => rfl⟩
  · have hnoid : ¬ ∀ x ∈ db.items, x.id ≠ iid := by
      obtain ⟨hm, hid⟩ := find?_id_spec db iid it hfc
      intro h
      exact h it hm hid
    rcases hnbc : moveNeighbor db it dir with _ | nb
    · have he := move_item_of_nb_none db iid dir it hfc hnbc
      rw [he]
      exact ⟨rfl, rfl,
        ⟨0, List.forall₂_same.mpr (fun x _ => ⟨rfl, rfl, rfl, rfl, rfl, rfl, rfl, rfl,
          fun _ _ => rfl⟩)⟩,
        fun h => absurd h hnoid⟩
    · have he : move_item db iid dir = { db with items := (db.items.map (fun x =>
          if x.id == iid then { x with position := nb.position } else x)).map (fun x =>
          if x.id == nb.id then { x with position := it.position } else x) } := by
        simp only [move_item, hfc, hnbc]
      rw [he]
      refine ⟨rfl, rfl, ⟨nb.id, ?_⟩, fun h => absurd h hnoid⟩
      show List.Forall₂ _ db.items ((db.items.map _).map _)
      rw [List.map_map, List.forall₂_map_right_iff]
      rw [List.forall₂_same]
      intro x _
      by_cases h1 : x.id = iid
      · by_cases h3 : iid = nb.id
        · simp [Function.comp, h1, h3]
        · simp [Function.comp, h1, h3, Ne.symm h3]
      · by_cases h2 : x.id = nb.id
        · have hne3 : ¬ nb.id = iid := fun hco => h1 (by rw [h2, hco])
          simp [Function.comp, h1, h2, hne3]
        · simp [Function.comp, h1, h2]

/-- Witness for C10: at a concrete state, moveItem on an unknown item id is a
no-op. -/
theorem move_item_frame_witness : move_item dbOne 5 "up" = dbOne :=
  (move_item_frame dbOne 5 "up").2.2.2 (by decide)

/-! Preservation of the per-task position-distinctness invariant (C2). -/

theorem applyOp_preserves (db : DB) (tid : Nat) (op : ItemOp)
    (h1 : ItemIdsOk db) (h2 : PosDistinct db tid) :
    ItemIdsOk (applyOp db op) ∧ PosDistinct (applyOp db op) tid := by
  cases op with
  | add tid' text cb now =>
    constructor
    · constructor
      · show ((db.items ++ [(⟨db.next_item_id, tid', text, false,
            coalesceMaxPos db.items tid' + 1, cb, now, cb, now⟩ : Item)]).map
            (fun x : Item => x.id)).Nodup
        rw [List.map_append, List.nodup_append]
        refine ⟨h1.1, List.nodup_singleton _, ?_⟩
        intro a ha hb
        obtain ⟨y, hy, rfl⟩ := List.mem_map.mp ha
        have hab : y.id = db.next_item_id := by simpa using hb
        have := h1.2 y hy
        omega
      · intro x hx
        rcases List.mem_append.mp hx with hxm | hxm
        · have := h1.2 x hxm
          show x.id < db.next_item_id + 1
          omega
        · have hxe : x = ⟨db.next_item_id, tid', text, false,
              coalesceMaxPos db.items tid' + 1, cb, now, cb, now⟩ := by simpa using hxm
          rw [hxe]
          show db.next_item_id < db.next_item_id + 1
          omega
    · show (((db.items ++ [(⟨db.next_item_id, tid', text, false,
          coalesceMaxPos db.items tid' + 1, cb, now, cb, now⟩ : Item)]).filter
            (fun x => x.task_id == tid)).map (fun x : Item => x.position)).Nodup
      rw [List.filter_append]
      by_cases hc : tid' = tid
      · subst hc
        have hfn : List.filter (fun x => x.task_id == tid')
            [(⟨db.next_item_id, tid', text, false, coalesceMaxPos db.items tid' + 1,
              cb, now, cb, now⟩ : Item)]
            = [⟨db.next_item_id, tid', text, false, coalesceMaxPos db.items tid' + 1,
              cb, now, cb, now⟩] := by simp
        rw [hfn, List.map_append, List.nodup_append]
        refine ⟨h2, List.nodup_singleton _, ?_⟩
        intro a ha hb
        obtain ⟨y, hy, rfl⟩ := List.mem_map.mp ha
        have hyle : y.position ≤ maxPosList (db.items.filter (fun x => x.task_id == tid')) :=
          maxPosList_ge _ y hy
        have hb' : y.position = coalesceMaxPos db.items tid' + 1 := by simpa using hb
        rw [coalesceMaxPos] at hb'
        omega
      · have hfn : List.filter (fun x => x.task_id == tid)
            [(⟨db.next_item_id, tid', text, false, coalesceMaxPos db.items tid' + 1,
              cb, now, cb, now⟩ : Item)] = [] := by simp [hc]
        rw [hfn, List.append_nil]
        exact h2
  | move iid dir =>
    show ItemIdsOk (move_item db iid dir) ∧ PosDistinct (move_item db iid dir) tid
    rcases hfc : db.items.find? (fun x => x.id == iid) with _ | it
    · rw [move_item_of_find_none db iid dir hfc]
      exact ⟨h1, h2⟩
    rcases hnbc : moveNeighbor db it dir with _ | nb
    · rw [move_item_of_nb_none db iid dir it hfc hnbc]
      exact ⟨h1, h2⟩
    obtain ⟨hitm, hitid⟩ := find?_id_spec db iid it hfc
    obtain ⟨hnbm, hnbt, hnbp⟩ := moveNeighbor_mem db it nb dir hnbc
    have hneid := moveNeighbor_ne_id db iid dir it nb h1.1 hfc hnbc
    have idInj := List.inj_on_of_nodup_map h1.1
    obtain ⟨heq, -, -, -, hnext, -⟩ := move_item_swap_items db iid dir it nb hfc hnbc hneid
    have hgid : ∀ x : Item,
        ((fun x : Item =>
          if x.id = iid then { x with position := nb.position }
          else if x.id = nb.id then { x with position := it.position } else x) x).id = x.id := by
      intro x
      by_cases hx1 : x.id = iid
      · simp [hx1]
      · by_cases hx2 : x.id = nb.id <;> simp [hx1, hx2, Ne.symm hneid]
    have hgt : ∀ x : Item,
        ((fun x : Item =>
          if x.id = iid then { x with position := nb.position }
          else if x.id = nb.id then { x with position := it.position } else x) x).task_id
          = x.task_id := by
      intro x
      by_cases hx1 : x.id = iid
      · simp [hx1]
      · by_cases hx2 : x.id = nb.id <;> simp [hx1, hx2, Ne.symm hneid]
    constructor
    · constructor
      · show ((move_item db iid dir).items.map (fun x : Item => x.id)).Nodup
        rw [heq, List.map_map]
        have hco : ((fun x : Item => x.id) ∘ (fun x : Item =>
            if x.id = iid then { x with position := nb.position }
            else if x.id = nb.id then { x with position := it.position } else x))
            = fun x : Item => x.id := funext (fun x => hgid x)
        rw [hco]
        exact h1.1
      · intro x hx
        rw [heq] at hx
        obtain ⟨y, hy, rfl⟩ := List.mem_map.mp hx
        rw [hnext, hgid y]
        exact h1.2 y hy
    · show (((move_item db iid dir).items.filter (fun x => x.task_id == tid)).map
          (fun x : Item => x.position)).Nodup
      rw [heq, filter_task_map_update db.items _ hgt tid]
      by_cases hcase : it.task_id = tid
      · have hitl : it ∈ db.items.filter (fun x => x.task_id == tid) :=
          List.mem_filter.mpr ⟨hitm, by simp [hcase]⟩
        have hnbl : nb ∈ db.items.filter (fun x => x.task_id == tid) :=
          List.mem_filter.mpr ⟨hnbm, by simp [hnbt, hcase]⟩
        apply swap_preserves_nodup_positions (db.items.filter (fun x => x.task_id == tid))
          it nb _ h2 hitl hnbl hnbp
        intro x hx
        have hxm := (List.mem_filter.mp hx).1
        by_cases hx1 : x.id = iid
        · left
          have hxit : x = it := idInj hxm hitm (by rw [hx1, hitid])
          exact ⟨hxit, by simp [hx1]⟩
        · by_cases hx2 : x.id = nb.id
          · right
            left
            have hxnb : x = nb := idInj hxm hnbm hx2
            exact ⟨hxnb, by simp [hx1, hx2, Ne.symm hneid]⟩
          · right
            right
            refine ⟨fun he => hx1 (by rw [he, hitid]), fun he => hx2 (by rw [he]), ?_⟩
            simp [hx1, hx2]
      · have hmapid : (db.items.filter (fun x => x.task_id == tid)).map (fun x : Item =>
            if x.id = iid then { x with position := nb.position }
            else if x.id = nb.id then { x with position := it.position } else x)
            = db.items.filter (fun x => x.task_id == tid) := by
          apply map_eq_self_of
          intro x hx
          obtain ⟨hxm, hxt⟩ := List.mem_filter.mp hx
          have hxt' : x.task_id = tid := by simpa using hxt
          have hx1 : ¬ x.id = iid := by
            intro he
            have hxit : x = it := idInj hxm hitm (by rw [he, hitid])
            exact hcase (by rw [← hxit]; exact hxt')
          have hx2 : ¬ x.id = nb.id := by
            intro he
            have hxnb : x = nb := idInj hxm hnbm he
            exact hcase (by rw [← hnbt, ← hxnb]; exact hxt')
          simp [hx1, hx2]
        rw [hmapid]
        exact h2
  | del iid =>
    have hsub : List.Sublist (db.items.filter (fun x => !(x.id == iid))) db.items :=
      List.filter_sublist _
    constructor
    · constructor
      · show ((db.items.filter (fun x => !(x.id == iid))).map (fun x : Item => x.id)).Nodup
        exact List.Nodup.sublist (hsub.map (fun x : Item => x.id)) h1.1
      · intro x hx
        exact h1.2 x (hsub.subset hx)
    · show (((db.items.filter (fun x => !(x.id == iid))).filter
          (fun x => x.task_id == tid)).map (fun x : Item => x.position)).Nodup
      exact List.Nodup.sublist
        ((hsub.filter (fun x => x.task_id == tid)).map (fun x : Item => x.position)) h2

theorem applyOps_preserves (db : DB) (tid : Nat) (ops : List ItemOp)
    (h1 : ItemIdsOk db) (h2 : PosDistinct db tid) :
    ItemIdsOk (applyOps db ops) ∧ PosDistinct (applyOps db ops) tid := by
  induction ops generalizing db with
  | nil => exact ⟨h1, h2⟩
  | cons op ops ih =>
    have h := applyOp_preserves db tid op h1 h2
    exact ih (applyOp db op) h.1 h.2

/-- C2: starting from a state whose item ids are distinct (the schema's
primary key) and where no two items of the given task share a position, any
sequence of addItem, moveItem and deleteItem operations preserves that no two
items of the task share a position. -/
theorem item_positions_pairwise_distinct (db : DB) (tid : Nat) (ops : List ItemOp)
    (h1 : ItemIdsOk db) (h2 : PosDistinct db tid) :
    PosDistinct (applyOps db ops) tid :=
  (applyOps_preserves db tid ops h1 h2).2

/-- Witness for C2 on a concrete state and operation sequence. -/
theorem item_positions_pairwise_distinct_witness :
    PosDistinct (applyOps dbAB
      [ItemOp.add 1 "ship" "alice" "t2", ItemOp.move 2 "up", ItemOp.del 1]) 1 :=
  item_positions_pairwise_distinct dbAB 1
    [ItemOp.add 1 "ship" "alice" "t2", ItemOp.move 2 "up", ItemOp.del 1]
    (by decide) (by decide)

end TodoDb
